import Mathlib

/-!
Verification of the reconciliation engine of `chatbox_modelscope_sync_mcp`
(`src/chatbox_modelscope_sync_mcp/sync.py`).

The development shallowly embeds the Python code: JSON values become the
inductive `JVal`; Python dictionary/string primitives (`dict.get`, `in`,
subscripting, `str.strip`, `str.replace`, truthiness) become Lean functions
that return `Except PyErr _` wherever the Python expression can raise; the
reconciliation loop of `ModelScopeMCPSync.sync` becomes a fold over a merge
state; file-system effects are recorded as data in outcome structures rather
than performed.
-/

/-- JSON values: the payloads flowing through the program.  Numbers are
modelled as integers (the fields the code touches are never floats). -/
inductive JVal where
  | null : JVal
  | bool (b : Bool) : JVal
  | num (n : Int) : JVal
  | str (s : String) : JVal
  | arr (xs : List JVal) : JVal
  | obj (kvs : List (String × JVal)) : JVal
deriving Repr

mutual
/-- Structural equality test on JSON values (Python `==` restricted to the
JSON fragment; the cross-type numeric coercions of Python are irrelevant to
the strings and objects this program ever compares). -/
def jvalBeq : JVal → JVal → Bool
  | .null, .null => true
  | .bool a, .bool b => a == b
  | .num a, .num b => a == b
  | .str a, .str b => a == b
  | .arr xs, .arr ys => jvalListBeq xs ys
  | .obj xs, .obj ys => jvalObjBeq xs ys
  | _, _ => false
/-- Pointwise `jvalBeq` on lists. -/
def jvalListBeq : List JVal → List JVal → Bool
  | [], [] => true
  | x :: xs, y :: ys => jvalBeq x y && jvalListBeq xs ys
  | _, _ => false
/-- Pointwise `jvalBeq` on key-value lists. -/
def jvalObjBeq : List (String × JVal) → List (String × JVal) → Bool
  | [], [] => true
  | (k, v) :: xs, (k', v') :: ys => k == k' && jvalBeq v v' && jvalObjBeq xs ys
  | _, _ => false
end

instance : BEq JVal := ⟨jvalBeq⟩

/-- Python exceptions that the embedded code can raise. -/
inductive PyErr where
  | attributeError (msg : String) : PyErr
  | typeError (msg : String) : PyErr
  | keyError (msg : String) : PyErr
  | indexError (msg : String) : PyErr
  | valueError (msg : String) : PyErr
  | runtimeError (msg : String) : PyErr
deriving Repr, DecidableEq

/-- Python whitespace recognised by `str.strip()` (ASCII fragment). -/
def pyIsSpace (c : Char) : Bool :=
  c = ' ' || c = '\t' || c = '\n' || c = '\r' || c = '\x0b' || c = '\x0c'

/-- Strip leading and trailing whitespace from a character list. -/
def stripChars (l : List Char) : List Char :=
  ((l.dropWhile pyIsSpace).reverse.dropWhile pyIsSpace).reverse

/-- Python `s.strip()` on a string. -/
def pyStripString (s : String) : String := ⟨stripChars s.data⟩

/-- Python `s.replace(c, '')` for a single character `c`. -/
def removeChar (c : Char) (s : String) : String := ⟨s.data.filter (· ≠ c)⟩

/-- Python `s.replace(a, b)` for single characters. -/
def replaceChar (a b : Char) (s : String) : String :=
  ⟨s.data.map (fun c => if c = a then b else c)⟩

/-- Test that `pat` is an initial segment of `l`. -/
def startsWithChars : List Char → List Char → Bool
  | [], _ => true
  | _ :: _, [] => false
  | p :: ps, c :: cs => p = c && startsWithChars ps cs

/-- Test that `pat` occurs contiguously inside `l` (Python `pat in s` on
strings). -/
def containsChars (pat : List Char) : List Char → Bool
  | [] => pat.isEmpty
  | l@(_ :: rest) => startsWithChars pat l || containsChars pat rest

/-- Python `s.endswith(suffix)`. -/
def pyEndsWith (s suffix : String) : Bool :=
  startsWithChars suffix.data.reverse s.data.reverse

/-- Python `s.lower()` (ASCII fragment, which covers every name the
specification's examples exercise). -/
def pyLower (s : String) : String := ⟨s.data.map Char.toLower⟩

/-- Last-binding-wins lookup in a key-value list: the semantics of a Python
dict built by repeated assignment (later assignments to a key override
earlier ones), and of a JSON object with duplicate keys as Python's `json`
module parses it. -/
def lastLookup {β : Type} (l : List (String × β)) (k : String) : Option β :=
  l.foldl (fun acc p => if p.1 = k then some p.2 else acc) none

/-- Python truthiness of a JSON value. -/
def pyTruthy : JVal → Bool
  | .null => false
  | .bool b => b
  | .num n => n != 0
  | .str s => !s.isEmpty
  | .arr xs => !xs.isEmpty
  | .obj kvs => !kvs.isEmpty

/-- Python `d.get(k, default)`: succeeds only on dicts, raising
`AttributeError` on every other value (lists, strings, None, numbers have no
`get` method). -/
def pyGet (d : JVal) (k : String) (default : JVal) : Except PyErr JVal :=
  match d with
  | .obj kvs => .ok ((lastLookup kvs k).getD default)
  | _ => .error (.attributeError "object has no method get")

/-- Python `d[k]` for a string key. -/
def pySubscript (d : JVal) (k : String) : Except PyErr JVal :=
  match d with
  | .obj kvs =>
    match lastLookup kvs k with
    | some v => .ok v
    | none => .error (.keyError k)
  | .arr _ => .error (.typeError "list indices must be integers")
  | .str _ => .error (.typeError "string indices must be integers")
  | _ => .error (.typeError "object is not subscriptable")

/-- Python `v[i]` for a non-negative integer index. -/
def pySubscriptNat (v : JVal) (i : Nat) : Except PyErr JVal :=
  match v with
  | .arr xs =>
    match xs[i]? with
    | some x => .ok x
    | none => .error (.indexError "list index out of range")
  | .str s =>
    match s.data[i]? with
    | some c => .ok (.str ⟨[c]⟩)
    | none => .error (.indexError "string index out of range")
  | .obj _ => .error (.keyError "integer key")
  | _ => .error (.typeError "object is not subscriptable")

/-- Python `k in v` for a string `k`: key membership on dicts, element
membership on lists, substring test on strings, `TypeError` otherwise. -/
def pyContains (v : JVal) (k : String) : Except PyErr Bool :=
  match v with
  | .obj kvs => .ok (lastLookup kvs k).isSome
  | .arr xs => .ok (xs.any (fun x => x == JVal.str k))
  | .str s => .ok (containsChars k.data s.data)
  | _ => .error (.typeError "argument is not iterable")

/-- Python `v.strip()` where `v` is an arbitrary value: only strings have a
`strip` method. -/
def pyStrip (v : JVal) : Except PyErr String :=
  match v with
  | .str s => .ok (pyStripString s)
  | _ => .error (.attributeError "strip")

/-- First-occurrence key list of a key-value list: the iteration order of the
corresponding Python dict. -/
def dictKeys (seen : List String) : List (String × JVal) → List String
  | [] => []
  | (k, _) :: rest =>
    if seen.contains k then dictKeys seen rest
    else k :: dictKeys (k :: seen) rest

/-- Python `for x in v`: lists yield elements, dicts yield their keys,
strings yield one-character strings, everything else raises `TypeError`. -/
def pyIter (v : JVal) : Except PyErr (List JVal) :=
  match v with
  | .arr xs => .ok xs
  | .obj kvs => .ok ((dictKeys [] kvs).map JVal.str)
  | .str s => .ok (s.data.map (fun c => JVal.str ⟨[c]⟩))
  | _ => .error (.typeError "object is not iterable")

/-- The `for lang in ['zh', 'en']` loop of `get_server_name`: try each
language tag in order, returning the first non-empty stripped
`locales[lang].get('name', '')`. -/
def localesLoop (locales : JVal) : List String → Except PyErr (Option String)
  | [] => .ok none
  | lang :: rest => do
    if ← pyContains locales lang then
      let v ← pySubscript locales lang
      let name ← pyStrip (← pyGet v "name" (.str ""))
      if name ≠ "" then return some name
      else localesLoop locales rest
    else localesLoop locales rest

/-- Embedding of `ModelScopeMCPSync.get_server_name` (sync.py:250-288): the
name-resolution priority chain `chinese_name`, `locales.zh.name`,
`locales.en.name`, `name`, transformed `id`; every field access follows
Python semantics and can raise. -/
def get_server_name (service : JVal) : Except PyErr (Option String) := do
  let name ← pyStrip (← pyGet service "chinese_name" (.str ""))
  if name ≠ "" then return some name
  let locales ← pyGet service "locales" (.obj [])
  match ← localesLoop locales ["zh", "en"] with
  | some n => return some n
  | none =>
    let name2 ← pyStrip (← pyGet service "name" (.str ""))
    if name2 ≠ "" then return some name2
    let server_id ← pyStrip (← pyGet service "id" (.str ""))
    if server_id ≠ "" then
      return some (replaceChar '/' '-' (removeChar '@' server_id))
    return none

/-- A validated service record, as built by `filter_valid_servers`: the name
is always a string (it comes out of `get_server_name`), while `url` and `id`
carry whatever JSON value the raw entry held. -/
structure RecordJ where
  name : String
  url : JVal
  id : JVal
deriving Repr

/-- The body of the `for service in ...` loop of `filter_valid_servers`
(sync.py:319-336), accumulating valid records in order. -/
def filterLoop (acc : List RecordJ) : List JVal → Except PyErr (List RecordJ)
  | [] => .ok acc
  | service :: rest => do
    match ← get_server_name service with
    | none => filterLoop acc rest
    | some name =>
      if name = "" then filterLoop acc rest
      else
        let urls ← pyGet service "operational_urls" (.arr [])
        if ¬ pyTruthy urls then filterLoop acc rest
        else
          let first ← pySubscriptNat urls 0
          let url ← pyGet first "url" .null
          if ¬ pyTruthy url then filterLoop acc rest
          else do
            let sid ← pyGet service "id" (.str "unknown")
            filterLoop (acc ++ [⟨name, url, sid⟩]) rest

/-- Embedding of `ModelScopeMCPSync.filter_valid_servers` (sync.py:290-338):
shape-check the response, then walk `Data.Result` collecting valid records. -/
def filter_valid_servers (api_response : JVal) : Except PyErr (List RecordJ) := do
  if ¬ pyTruthy api_response then return []
  if ¬ (← pyContains api_response "Data") then return []
  let data ← pySubscript api_response "Data"
  if ¬ (← pyContains data "Result") then return []
  let result ← pySubscript data "Result"
  let items ← pyIter result
  filterLoop [] items

/-- The `transport` block of a registry server entry. -/
structure Transport where
  type : String
  url : String
deriving Repr, DecidableEq

/-- A server entry of `registry.settings.mcp.servers`. -/
structure ServerEntry where
  id : String
  name : String
  enabled : Bool
  transport : Option Transport
deriving Repr, DecidableEq

/-- An incoming service record as `sync` consumes it: `name` and `url`
strings, plus the raw id. -/
structure ServiceRecord where
  name : String
  url : String
  id : String
deriving Repr, DecidableEq

/-- The registry document: the server list `settings.mcp.servers` that the
merge reads and writes, and, abstractly, every other part of the document
(`rest`), which the merge never accesses. -/
structure Registry (α : Type) where
  servers : List ServerEntry
  rest : α
deriving Repr, DecidableEq

/-- The URL under which an entry participates in the merge: `some url` when
the entry has a transport block of type `"http"` (the comprehension guard
`s.get('transport', dict()).get('type') == 'http'` of sync.py:385-386),
otherwise `none`. -/
def entryHttpUrl (e : ServerEntry) : Option String :=
  match e.transport with
  | some t => if t.type = "http" then some t.url else none
  | none => none

/-- The dict comprehension of sync.py:385-386 building `existing_urls`,
realised as the ordered list of `(url, position)` pairs of the HTTP entries;
`lastLookup`-style lookup on this list gives exact Python-dict semantics
(a later entry with the same URL overrides an earlier one).  Positions stand
for the Python references into the live server list. -/
def buildIndexAux (i : Nat) : List ServerEntry → List (String × Nat)
  | [] => []
  | s :: rest =>
    match entryHttpUrl s with
    | some u => (u, i) :: buildIndexAux (i + 1) rest
    | none => buildIndexAux (i + 1) rest

/-- Index of a server list from position 0. -/
def buildIndex (servers : List ServerEntry) : List (String × Nat) :=
  buildIndexAux 0 servers

/-- State of the server-update loop of `sync` (sync.py:388-414): the mutable
server list, the `existing_urls` dict, the two counters, and how many fresh
UUIDs have been drawn. -/
structure MergeState where
  servers : List ServerEntry
  index : List (String × Nat)
  updated : Nat
  added : Nat
  freshCount : Nat
deriving Repr, DecidableEq

/-- One iteration of the server-update loop (sync.py:391-414).  `freshIds`
supplies the values of successive `uuid.uuid4()` calls.  The `existing_urls`
dict is only read inside the loop — the insert branch appends to the server
list but never writes the new URL into the dict (the code has no statement
updating `existing_urls`), so a later record with the same fresh URL inserts
again.  The defensive `none` branch on an out-of-range index is unreachable:
the index always points into the server list. -/
def mergeStep (freshIds : Nat → String) (st : MergeState) (rec : ServiceRecord) :
    MergeState :=
  match lastLookup st.index rec.url with
  | some i =>
    match st.servers[i]? with
    | some old =>
      if old.name ≠ rec.name then
        { st with
          servers := st.servers.set i { old with name := rec.name }
          updated := st.updated + 1 }
      else st
    | none => st
  | none =>
    let new_server : ServerEntry :=
      { id := freshIds st.freshCount
        name := rec.name
        enabled := true
        transport := some { type := "http", url := rec.url } }
    { st with
      servers := st.servers ++ [new_server]
      added := st.added + 1
      freshCount := st.freshCount + 1 }

/-- The whole server-update loop of `sync`: build `existing_urls`, then fold
the loop body over the incoming records in filter order. -/
def mergeServers (freshIds : Nat → String) (servers : List ServerEntry)
    (records : List ServiceRecord) : MergeState :=
  records.foldl (mergeStep freshIds) ⟨servers, buildIndex servers, 0, 0, 0⟩

/-- The merge pass on a whole registry document: run the server-update loop
on `settings.mcp.servers` and report `(registry, updatedCount, addedCount)`.
Only the server list is ever read or written. -/
def merge (freshIds : Nat → String) (r : Registry α)
    (records : List ServiceRecord) : Registry α × Nat × Nat :=
  let st := mergeServers freshIds r.servers records
  ({ r with servers := st.servers }, st.updated, st.added)

/-- The string content of a JSON value used as a name/url/id by the typed
merge layer; raw records whose `url` is not a JSON string are outside the
modelled domain of `sync` (the remote catalog's urls are strings). -/
def jvalString : JVal → String
  | .str s => s
  | _ => ""

/-- Typed view of a filtered record, consumed by the merge loop. -/
def toServiceRecord (r : RecordJ) : ServiceRecord :=
  { name := r.name, url := jvalString r.url, id := jvalString r.id }

/-- Observable outcome of one `sync` run (sync.py:340-426): whether an
exception propagated, whether the registry file was read, the boolean return
value (absent when an exception propagated), whether `backup_config` ran,
and the document written by `save_config` (absent when nothing was
written). -/
structure SyncOutcome (α : Type) where
  raised : Bool
  readConfig : Bool
  result : Option Bool
  backedUp : Bool
  written : Option (Registry α)
deriving Repr, DecidableEq

/-- Embedding of `ModelScopeMCPSync.sync` (sync.py:340-426).  The API call
and the loaded configuration are inputs (`api_response` carries a transport
error as `.error`); file effects are recorded in the outcome.  The final
`save_config` is modelled as succeeding (its own failure modes are embedded
separately in `save_config`). -/
def sync (freshIds : Nat → String) (api_response : Except PyErr JVal)
    (config : Registry α) (backup fileExists : Bool) : SyncOutcome α :=
  match api_response with
  | .error _ => ⟨true, false, none, false, none⟩
  | .ok resp =>
    match filter_valid_servers resp with
    | .error _ => ⟨true, true, none, false, none⟩
    | .ok valid =>
      if valid.isEmpty then ⟨false, true, some false, false, none⟩
      else
        let st := mergeServers freshIds config.servers (valid.map toServiceRecord)
        if st.updated = 0 ∧ st.added = 0 then ⟨false, true, some true, false, none⟩
        else
          ⟨false, true, some true, backup && fileExists,
            some { config with servers := st.servers }⟩

/-- Strip trailing `'/'` characters. -/
def dropTrailingSlashes (l : List Char) : List Char :=
  (l.reverse.dropWhile (· = '/')).reverse

/-- POSIX `os.path.dirname`: everything up to the last `'/'`, with trailing
slashes stripped unless the head is all slashes; the empty string when the
path has no directory component. -/
def dirname (p : String) : String :=
  let chars := p.data
  match chars.reverse.findIdx? (· = '/') with
  | none => ""
  | some r =>
    let head := chars.take (chars.length - r)
    if head.all (· = '/') then ⟨head⟩ else ⟨dropTrailingSlashes head⟩

/-- The write performed by a successful `save_config`: target path, document,
and the `json.dump` formatting arguments (`indent=2`,
`ensure_ascii=False`). -/
structure SavedFile (α : Type) where
  path : String
  doc : α
  indent : Nat
  ensureAscii : Bool
deriving Repr, DecidableEq

/-- Embedding of `ModelScopeMCPSync.save_config` (sync.py:221-248).  The
function first runs `os.makedirs(os.path.dirname(config_path),
exist_ok=True)`; when the path has no directory component the dirname is
`''` and `os.makedirs('')` raises `FileNotFoundError` even with
`exist_ok=True`, which the `except` clause re-raises as a `RuntimeError`.
`writeOk` abstracts the file system accepting the directory creation and the
write; any failure is likewise re-raised as `RuntimeError`.  On success the
function returns `True` together with the recorded write. -/
def save_config (writeOk : Bool) (config : α) (config_path : String) :
    Except PyErr (Bool × SavedFile α) :=
  if dirname config_path = "" then .error (.runtimeError "save failed: makedirs of empty dirname")
  else if ¬ writeOk then .error (.runtimeError "save failed")
  else .ok (true, ⟨config_path, config, 2, false⟩)

/-- One value of the export document's `mcpServers` mapping. -/
structure MCPEntry where
  type : String
  url : String
deriving Repr, DecidableEq

/-- Python-dict assignment `d[k] = v` on an association list with unique
keys: overwrite in place when the key exists (keeping its position, as a
dict does), otherwise append. -/
def insertAssoc (l : List (String × MCPEntry)) (k : String) (v : MCPEntry) :
    List (String × MCPEntry) :=
  if l.any (fun p => p.1 = k) then l.map (fun p => if p.1 = k then (k, v) else p)
  else l ++ [(k, v)]

/-- Dict lookup on the export mapping. -/
def lookupAssoc (l : List (String × MCPEntry)) (k : String) : Option MCPEntry :=
  (l.find? (fun p => p.1 = k)).map Prod.snd

/-- The slug derivation of `export_mcp_json_to_file` (sync.py:465-466):
lower-case, replace spaces and underscores with hyphens, keep only
alphanumerics and hyphens. -/
def slugify (name : String) : String :=
  let safe := replaceChar '_' '-' (replaceChar ' ' '-' (pyLower name))
  ⟨safe.data.filter (fun c => c.isAlphanum || c = '-')⟩

/-- The URL normalisation of `export_mcp_json_to_file` (sync.py:469-472):
leave the url alone when it already ends in `/sse`, otherwise append a
trailing `/` when missing, then `sse`. -/
def sseUrl (url : String) : String :=
  if pyEndsWith url "/sse" then url
  else (if pyEndsWith url "/" then url else url ++ "/") ++ "sse"

/-- The dictionary-construction loop of `export_mcp_json_to_file`
(sync.py:459-477): the `mcpServers` mapping of the export document. -/
def export_mcp_servers (records : List ServiceRecord) : List (String × MCPEntry) :=
  records.foldl
    (fun acc r => insertAssoc acc (slugify r.name) ⟨"sse", sseUrl r.url⟩) []

/-- The list of URLs of the HTTP-transport entries of a server list, in
order. -/
def httpUrls (servers : List ServerEntry) : List String :=
  servers.filterMap entryHttpUrl

/-- Well-formedness of the `existing_urls` index relative to the server
list: every indexed pair points at an in-range HTTP entry carrying that URL.
The converse (every HTTP entry resolvable through the index) is *not* an
invariant of the loop: the code never writes inserted URLs into the dict. -/
def IndexOK (servers : List ServerEntry) (idx : List (String × Nat)) : Prop :=
  ∀ (u : String) (i : Nat), (u, i) ∈ idx →
    ∃ e, servers[i]? = some e ∧ entryHttpUrl e = some u

/-- A record is matched by the state: its URL resolves through the index to
an entry already carrying the record's name (so the loop body is a no-op on
it). -/
def Matches (servers : List ServerEntry) (idx : List (String × Nat))
    (rec : ServiceRecord) : Prop :=
  ∃ i e, lastLookup idx rec.url = some i ∧ servers[i]? = some e ∧
    e.name = rec.name

/-- The merge's frame relation between the original server list and the
current one: no entry is removed (positions and length are preserved or
grown), every original entry keeps its id, enabled flag and transport, and
an original entry that is not an HTTP entry is kept entirely unchanged. -/
def FramePreserved (orig cur : List ServerEntry) : Prop :=
  orig.length ≤ cur.length ∧
  ∀ (i : Nat) (e : ServerEntry), orig[i]? = some e →
    ∃ e', cur[i]? = some e' ∧ e'.id = e.id ∧ e'.enabled = e.enabled ∧
      e'.transport = e.transport ∧ (entryHttpUrl e = none → e' = e)

/-- Shape of the loop state mid-pass: the server list is the (renamed)
original front — the part the stale `existing_urls` dict was built from and
still describes — followed by the entries appended so far, none of whose
HTTP URLs resolve through the stale dict (their URLs took the insert branch,
and the code never writes them into the dict). -/
def PassShape (st : MergeState) : Prop :=
  ∃ front back, st.servers = front ++ back ∧ st.index = buildIndex front ∧
    ∀ e ∈ back, ∀ u : String, entryHttpUrl e = some u →
      lastLookup st.index u = none

/-- The string held by field `k` of an object, with the empty string for a
missing or non-string field.  Used by the specification-level name
resolver. -/
def fieldString (s : JVal) (k : String) : String :=
  match s with
  | .obj kvs =>
    match lastLookup kvs k with
    | some (.str v) => v
    | _ => ""
  | _ => ""

/-- The string held by `lk[lang].name` of a locales object's key-value
list, with the empty string when any layer is missing or not of the expected
shape. -/
def localeName (lk : List (String × JVal)) (lang : String) : String :=
  match lastLookup lk lang with
  | some (.obj o) =>
    match lastLookup o "name" with
    | some (.str v) => v
    | _ => ""
  | _ => ""

/-- The string held by `locales[lang].name`, with the empty string when any
layer is missing or not of the expected shape. -/
def localeString (s : JVal) (lang : String) : String :=
  match s with
  | .obj kvs =>
    match lastLookup kvs "locales" with
    | some (.obj lk) => localeName lk lang
    | _ => ""
  | _ => ""

/-- The name-resolution chain as the specification words it: the first
non-empty string, after trimming whitespace, among `chinese_name`,
`locales.zh.name`, `locales.en.name`, `name`, and finally the trimmed `id`
transformed by deleting every `@` and replacing every `/` with `-`; `none`
when no stage yields a non-empty string. -/
def resolveNameSpec (s : JVal) : Option String :=
  let c := pyStripString (fieldString s "chinese_name")
  if c ≠ "" then some c else
  let z := pyStripString (localeString s "zh")
  if z ≠ "" then some z else
  let en := pyStripString (localeString s "en")
  if en ≠ "" then some en else
  let n := pyStripString (fieldString s "name")
  if n ≠ "" then some n else
  let i := pyStripString (fieldString s "id")
  if i ≠ "" then some (replaceChar '/' '-' (removeChar '@' i))
  else none

/-- A field that, when present, holds a string. -/
def WTStrOpt : Option JVal → Prop
  | none => True
  | some (.str _) => True
  | some _ => False

/-- A locale object that, when present, is an object whose `name` field,
when present, is a string. -/
def WTLocaleVal : Option JVal → Prop
  | none => True
  | some (.obj o) => WTStrOpt (lastLookup o "name")
  | some _ => False

/-- A `locales` field that, when present, is an object with well-typed `zh`
and `en` locale objects. -/
def WTLocales : Option JVal → Prop
  | none => True
  | some (.obj lk) =>
    WTLocaleVal (lastLookup lk "zh") ∧ WTLocaleVal (lastLookup lk "en")
  | some _ => False

/-- Well-typed name-related fields of a raw record's key-value list. -/
def WTServiceKVs (kvs : List (String × JVal)) : Prop :=
  WTStrOpt (lastLookup kvs "chinese_name") ∧
  WTLocales (lastLookup kvs "locales") ∧
  WTStrOpt (lastLookup kvs "name") ∧
  WTStrOpt (lastLookup kvs "id")

/-- A raw record that is an object with well-typed name-related fields: the
domain on which the name resolver is exception-free. -/
def WTService (s : JVal) : Prop :=
  ∃ kvs, s = .obj kvs ∧ WTServiceKVs kvs

/-- An `operational_urls` field that, when present, is either falsy or a
non-empty list whose first element is an object. -/
def WTUrls : Option JVal → Prop
  | none => True
  | some v =>
    pyTruthy v = false ∨
    ∃ first rest, v = .arr (first :: rest) ∧ ∃ o, first = .obj o

/-- A raw catalog entry on which the filter is exception-free: an object
with well-typed name fields and a well-typed endpoint list. -/
def WTEntry (s : JVal) : Prop :=
  ∃ kvs, s = .obj kvs ∧ WTServiceKVs kvs ∧
    WTUrls (lastLookup kvs "operational_urls")

/-- The record `filter_valid_servers` emits for one raw entry, or `none`
when the entry is rejected: resolved name non-`none` and non-empty, endpoint
list present and truthy, first endpoint's `url` truthy. -/
def emitEntry (e : JVal) : Option RecordJ :=
  match resolveNameSpec e with
  | none => none
  | some n =>
    if n = "" then none
    else
      let urls := match e with
        | .obj kvs => (lastLookup kvs "operational_urls").getD (.arr [])
        | _ => .arr []
      if ¬ pyTruthy urls then none
      else
        match urls with
        | .arr (first :: _) =>
          let url := match first with
            | .obj o => (lastLookup o "url").getD .null
            | _ => .null
          if ¬ pyTruthy url then none
          else
            let sid := match e with
              | .obj kvs => (lastLookup kvs "id").getD (.str "unknown")
              | _ => .str "unknown"
            some ⟨n, url, sid⟩
        | _ => none

/-- A response that lacks the nested `Data.Result` container, within the
shapes on which the guard itself cannot raise: a falsy value, or an object
without a `Data` key, or an object whose `Data` is an object without a
`Result` key. -/
def lacksDataResult (resp : JVal) : Prop :=
  pyTruthy resp = false ∨
  ∃ kvs, resp = .obj kvs ∧
    (lastLookup kvs "Data" = none ∨
     ∃ dk, lastLookup kvs "Data" = some (.obj dk) ∧
       lastLookup dk "Result" = none)

/-!  Lemmas about the last-binding-wins lookup. -/

theorem lastLookup_foldl_acc {β : Type} (k : String) (l : List (String × β)) :
    ∀ acc : Option β,
      l.foldl (fun a p => if p.1 = k then some p.2 else a) acc =
        (lastLookup l k).elim acc some := by
  induction l with
  | nil => intro acc; rfl
  | cons p rest ih =>
    intro acc
    have hl : lastLookup (p :: rest) k =
        (lastLookup rest k).elim (if p.1 = k then some p.2 else none) some := by
      show rest.foldl _ (if p.1 = k then some p.2 else none) = _
      exact ih _
    have hstep : (p :: rest).foldl (fun a q => if q.1 = k then some q.2 else a) acc =
        rest.foldl (fun a q => if q.1 = k then some q.2 else a)
          (if p.1 = k then some p.2 else acc) := rfl
    rw [hstep, ih, hl]
    cases h : lastLookup rest k with
    | some v => rfl
    | none => by_cases hp : p.1 = k <;> simp [hp]

theorem lastLookup_cons {β : Type} (k : String) (p : String × β)
    (l : List (String × β)) :
    lastLookup (p :: l) k =
      (lastLookup l k).elim (if p.1 = k then some p.2 else none) some := by
  show l.foldl _ (if p.1 = k then some p.2 else none) = _
  exact lastLookup_foldl_acc k l _

theorem lastLookup_append {β : Type} (k : String) (a b : List (String × β)) :
    lastLookup (a ++ b) k = (lastLookup b k).elim (lastLookup a k) some := by
  show (a ++ b).foldl _ none = _
  rw [List.foldl_append]
  exact lastLookup_foldl_acc k b _

theorem lastLookup_mem {β : Type} {k : String} {v : β} {l : List (String × β)}
    (h : lastLookup l k = some v) : (k, v) ∈ l := by
  induction l with
  | nil => simp [lastLookup] at h
  | cons p rest ih =>
    rw [lastLookup_cons] at h
    cases hr : lastLookup rest k with
    | some w =>
      rw [hr] at h
      simp only [Option.elim] at h
      exact List.mem_cons_of_mem _ (ih (hr.trans h))
    | none =>
      rw [hr] at h
      simp only [Option.elim] at h
      by_cases hp : p.1 = k
      · rw [if_pos hp] at h
        have : p = (k, v) := by
          cases p with
          | mk a b => cases h; cases hp; rfl
        exact this ▸ List.mem_cons_self _ _
      · rw [if_neg hp] at h
        exact absurd h (by simp)

theorem lastLookup_isSome_of_mem {β : Type} {k : String} {v : β}
    {l : List (String × β)} (h : (k, v) ∈ l) : (lastLookup l k).isSome := by
  induction l with
  | nil => simp at h
  | cons p rest ih =>
    rw [lastLookup_cons]
    rcases List.mem_cons.mp h with hp | hr
    · cases hr : lastLookup rest k with
      | some w => simp
      | none => subst hp; simp
    · cases hl : lastLookup rest k with
      | some w => simp
      | none => exact absurd (ih hr) (by simp [hl])

theorem lastLookup_eq_none_of_not_mem {β : Type} {k : String}
    {l : List (String × β)} (h : ∀ p ∈ l, p.1 ≠ k) : lastLookup l k = none := by
  induction l with
  | nil => rfl
  | cons p rest ih =>
    rw [lastLookup_cons, ih (fun q hq => h q (List.mem_cons_of_mem _ hq))]
    simp [h p (List.mem_cons_self _ _)]

/-!  Lemmas about the `existing_urls` index. -/

theorem buildIndexAux_mem (u : String) (j : Nat) :
    ∀ (l : List ServerEntry) (i : Nat),
      (u, j) ∈ buildIndexAux i l ↔
        ∃ k e, l[k]? = some e ∧ entryHttpUrl e = some u ∧ j = i + k := by
  intro l
  induction l with
  | nil => intro i; simp [buildIndexAux]
  | cons s rest ih =>
    intro i
    cases hs : entryHttpUrl s with
    | some u0 =>
      simp only [buildIndexAux, hs, List.mem_cons]
      constructor
      · rintro (h | h)
        · refine ⟨0, s, by simp, ?_, ?_⟩
          · cases h; exact hs
          · cases h; omega
        · rcases (ih (i + 1)).mp h with ⟨k, e, hk, he, hj⟩
          exact ⟨k + 1, e, by simpa using hk, he, by omega⟩
      · rintro ⟨k, e, hk, he, hj⟩
        cases k with
        | zero =>
          left
          simp only [List.getElem?_cons_zero, Option.some.injEq] at hk
          subst hk
          rw [hs] at he
          cases he
          simp [hj]
        | succ k' =>
          right
          refine (ih (i + 1)).mpr ⟨k', e, by simpa using hk, he, by omega⟩
    | none =>
      simp only [buildIndexAux, hs]
      rw [ih (i + 1)]
      constructor
      · rintro ⟨k, e, hk, he, hj⟩
        exact ⟨k + 1, e, by simpa using hk, he, by omega⟩
      · rintro ⟨k, e, hk, he, hj⟩
        cases k with
        | zero =>
          simp only [List.getElem?_cons_zero, Option.some.injEq] at hk
          subst hk
          rw [hs] at he
          cases he
        | succ k' =>
          exact ⟨k', e, by simpa using hk, he, by omega⟩

theorem buildIndex_mem (u : String) (j : Nat) (servers : List ServerEntry) :
    (u, j) ∈ buildIndex servers ↔
      ∃ e, servers[j]? = some e ∧ entryHttpUrl e = some u := by
  rw [buildIndex, buildIndexAux_mem]
  constructor
  · rintro ⟨k, e, hk, he, hj⟩
    have hkj : k = j := by omega
    subst hkj
    exact ⟨e, hk, he⟩
  · rintro ⟨e, he, hu⟩
    exact ⟨j, e, he, hu, by omega⟩

theorem indexOK_buildIndex (servers : List ServerEntry) :
    IndexOK servers (buildIndex servers) := by
  intro u i hmem
  exact (buildIndex_mem u i servers).mp hmem

/-!  Case lemmas for one iteration of the server-update loop. -/

theorem entryHttpUrl_rename (old : ServerEntry) (n : String) :
    entryHttpUrl { old with name := n } = entryHttpUrl old := rfl

theorem mergeStep_update (f : Nat → String) (st : MergeState) (rec : ServiceRecord)
    (i : Nat) (old : ServerEntry) (hl : lastLookup st.index rec.url = some i)
    (hs : st.servers[i]? = some old) (hn : old.name ≠ rec.name) :
    mergeStep f st rec =
      { st with
        servers := st.servers.set i { old with name := rec.name }
        updated := st.updated + 1 } := by
  unfold mergeStep
  rw [hl]
  simp only [hs, ne_eq, ite_not]
  rw [if_neg hn]

theorem mergeStep_noop (f : Nat → String) (st : MergeState) (rec : ServiceRecord)
    (i : Nat) (old : ServerEntry) (hl : lastLookup st.index rec.url = some i)
    (hs : st.servers[i]? = some old) (hn : old.name = rec.name) :
    mergeStep f st rec = st := by
  unfold mergeStep
  rw [hl]
  simp [hs, hn]

theorem mergeStep_insert (f : Nat → String) (st : MergeState) (rec : ServiceRecord)
    (hl : lastLookup st.index rec.url = none) :
    mergeStep f st rec =
      { st with
        servers := st.servers ++ [⟨f st.freshCount, rec.name, true,
          some ⟨"http", rec.url⟩⟩]
        added := st.added + 1
        freshCount := st.freshCount + 1 } := by
  unfold mergeStep
  rw [hl]

theorem mergeStep_stuck (f : Nat → String) (st : MergeState) (rec : ServiceRecord)
    (i : Nat) (hl : lastLookup st.index rec.url = some i)
    (hs : st.servers[i]? = none) : mergeStep f st rec = st := by
  unfold mergeStep
  rw [hl]
  simp only [hs]

/-!  Preservation of index well-formedness by the loop body. -/

theorem mergeStep_indexOK (f : Nat → String) (st : MergeState)
    (rec : ServiceRecord) (h : IndexOK st.servers st.index) :
    IndexOK (mergeStep f st rec).servers (mergeStep f st rec).index := by
  cases hl : lastLookup st.index rec.url with
  | some i =>
    cases hs : st.servers[i]? with
    | some old =>
      by_cases hn : old.name = rec.name
      · rw [mergeStep_noop f st rec i old hl hs hn]
        exact h
      · rw [mergeStep_update f st rec i old hl hs hn]
        have hilen : i < st.servers.length := by
          rcases List.getElem?_eq_some.mp hs with ⟨hlt, _⟩
          exact hlt
        intro u j hj
        rcases h u j hj with ⟨e, he, hu⟩
        by_cases hij : i = j
        · subst hij
          refine ⟨{ old with name := rec.name },
            List.getElem?_set_eq_of_lt _ hilen, ?_⟩
          rw [entryHttpUrl_rename]
          rw [he] at hs
          cases hs
          exact hu
        · exact ⟨e, by rw [List.getElem?_set_ne hij]; exact he, hu⟩
    | none =>
      rw [mergeStep_stuck f st rec i hl hs]
      exact h
  | none =>
    rw [mergeStep_insert f st rec hl]
    intro u j hj
    rcases h u j hj with ⟨e, he, hu⟩
    have hjlen : j < st.servers.length := by
      rcases List.getElem?_eq_some.mp he with ⟨hlt, _⟩
      exact hlt
    exact ⟨e, by rw [List.getElem?_append_left hjlen]; exact he, hu⟩

/-!  Invariant preservation along the whole pass. -/

theorem foldl_indexOK (f : Nat → String) (records : List ServiceRecord) :
    ∀ st : MergeState, IndexOK st.servers st.index →
      IndexOK (records.foldl (mergeStep f) st).servers
        (records.foldl (mergeStep f) st).index := by
  induction records with
  | nil => intro st h; exact h
  | cons rec rest ih =>
    intro st h
    exact ih (mergeStep f st rec) (mergeStep_indexOK f st rec h)

/-- C1, evaluation at the failing input: `existing_urls` is built once
before the server-update loop (sync.py:385-386) and never written inside it,
so a second incoming record with the same fresh URL is *not* treated as an
update — both records take the insert branch.  From an empty registry, two
records sharing the URL `u` yield `added_count = 2` and leave two
HTTP-transport entries with the same URL, violating both the claimed
URL-uniqueness invariant and the claimed second-record-is-an-update
behaviour; the claim states the spec's intent and the code lacks the
index-update guard. -/
theorem c1_url_uniqueness_code_bug :
    (mergeServers (fun _ => "uuid") []
        [⟨"A", "u", "i1"⟩, ⟨"B", "u", "i2"⟩]).added = 2 ∧
    httpUrls (mergeServers (fun _ => "uuid") []
        [⟨"A", "u", "i1"⟩, ⟨"B", "u", "i2"⟩]).servers = ["u", "u"] ∧
    ¬ (httpUrls (mergeServers (fun _ => "uuid") []
        [⟨"A", "u", "i1"⟩, ⟨"B", "u", "i2"⟩]).servers).Nodup :=
  ⟨rfl, rfl, by decide⟩

/-!  Frame preservation: the merge never deletes and never touches anything
but the name of an indexed HTTP entry. -/

theorem entryHttpUrl_congr (e e' : ServerEntry) (h : e.transport = e'.transport) :
    entryHttpUrl e = entryHttpUrl e' := by
  unfold entryHttpUrl
  rw [h]

theorem framePreserved_refl (orig : List ServerEntry) :
    FramePreserved orig orig :=
  ⟨Nat.le_refl _, fun _ e h => ⟨e, h, rfl, rfl, rfl, fun _ => rfl⟩⟩

theorem mergeStep_frame (f : Nat → String) (st : MergeState)
    (rec : ServiceRecord) (orig : List ServerEntry)
    (hok : IndexOK st.servers st.index)
    (h : FramePreserved orig st.servers) :
    FramePreserved orig (mergeStep f st rec).servers := by
  obtain ⟨hlen, hpos⟩ := h
  cases hl : lastLookup st.index rec.url with
  | some j =>
    cases hs : st.servers[j]? with
    | some old =>
      by_cases hn : old.name = rec.name
      · rw [mergeStep_noop f st rec j old hl hs hn]
        exact ⟨hlen, hpos⟩
      · rw [mergeStep_update f st rec j old hl hs hn]
        refine ⟨by simpa using hlen, ?_⟩
        intro i e he
        by_cases hij : j = i
        · subst hij
          rcases hpos j e he with ⟨e', he', hid, hen, htr, hnon⟩
          have hoe : e' = old := by
            have h3 := he'.symm.trans hs
            injection h3
          have hjlen : j < st.servers.length := by
            rcases List.getElem?_eq_some.mp he' with ⟨hlt, _⟩
            exact hlt
          refine ⟨{ old with name := rec.name },
            List.getElem?_set_eq_of_lt _ hjlen, ?_, ?_, ?_, ?_⟩
          · show old.id = e.id
            rw [← hoe]; exact hid
          · show old.enabled = e.enabled
            rw [← hoe]; exact hen
          · show old.transport = e.transport
            rw [← hoe]; exact htr
          · intro hnone
            exfalso
            rcases hok rec.url j (lastLookup_mem hl) with ⟨e2, he2, hu2⟩
            have h2o : e2 = old := by
              have h3 := he2.symm.trans hs
              injection h3
            have htro : old.transport = e.transport := by
              rw [← hoe]; exact htr
            have h4 : entryHttpUrl old = none := by
              rw [entryHttpUrl_congr old e htro]; exact hnone
            rw [h2o, h4] at hu2
            cases hu2
        · rcases hpos i e he with ⟨e', he', rest⟩
          exact ⟨e', by rw [List.getElem?_set_ne hij]; exact he', rest⟩
    | none =>
      rw [mergeStep_stuck f st rec j hl hs]
      exact ⟨hlen, hpos⟩
  | none =>
    rw [mergeStep_insert f st rec hl]
    refine ⟨by simp; omega, ?_⟩
    intro i e he
    rcases hpos i e he with ⟨e', he', rest⟩
    have hilen : i < st.servers.length := by
      rcases List.getElem?_eq_some.mp he' with ⟨hlt, _⟩
      exact hlt
    exact ⟨e', by rw [List.getElem?_append_left hilen]; exact he', rest⟩

theorem foldl_frame (f : Nat → String) (records : List ServiceRecord)
    (orig : List ServerEntry) :
    ∀ st : MergeState, IndexOK st.servers st.index →
      FramePreserved orig st.servers →
      FramePreserved orig (records.foldl (mergeStep f) st).servers := by
  induction records with
  | nil => intro st _ h; exact h
  | cons rec rest ih =>
    intro st hok h
    exact ih (mergeStep f st rec) (mergeStep_indexOK f st rec hok)
      (mergeStep_frame f st rec orig hok h)

/-- C7: a merge pass never removes a server entry; every original position
keeps its id, enabled flag and transport (so an entry matched by URL has at
most its name altered); an original entry that is non-HTTP or lacks a
transport block is left completely unchanged; and everything in the registry
document outside `settings.mcp.servers` is untouched. -/
theorem c7_merge_frame {α : Type} (freshIds : Nat → String) (r : Registry α)
    (records : List ServiceRecord) :
    (merge freshIds r records).1.rest = r.rest ∧
    r.servers.length ≤ (merge freshIds r records).1.servers.length ∧
    ∀ (i : Nat) (e : ServerEntry), r.servers[i]? = some e →
      ∃ e', (merge freshIds r records).1.servers[i]? = some e' ∧
        e'.id = e.id ∧ e'.enabled = e.enabled ∧ e'.transport = e.transport ∧
        (entryHttpUrl e = none → e' = e) := by
  refine ⟨rfl, ?_⟩
  exact foldl_frame freshIds records r.servers
    ⟨r.servers, buildIndex r.servers, 0, 0, 0⟩
    (indexOK_buildIndex r.servers) (framePreserved_refl r.servers)

/-- Witness for C7: a non-HTTP entry survives a merge pass unchanged. -/
theorem c7_merge_frame_witness :
    ∃ e', ((merge (fun _ => "fresh-uuid")
        (⟨[⟨"id0", "Old", true, none⟩], ()⟩ : Registry Unit)
        [⟨"New", "https://x", "i1"⟩]).1.servers)[0]? = some e' ∧
      e'.id = "id0" ∧ e'.enabled = true ∧ e'.transport = none ∧
      (entryHttpUrl (⟨"id0", "Old", true, none⟩ : ServerEntry) = none →
        e' = ⟨"id0", "Old", true, none⟩) :=
  (c7_merge_frame (fun _ => "fresh-uuid")
    (⟨[⟨"id0", "Old", true, none⟩], ()⟩ : Registry Unit)
    [⟨"New", "https://x", "i1"⟩]).2.2 0 ⟨"id0", "Old", true, none⟩ rfl

/-- C3: the three cases of the per-record merge behaviour, on a registry
holding one HTTP entry `e` with URL `u`: a record with indexed URL and a
different name overwrites only the name and counts one update; a record with
indexed URL and the same name changes nothing and counts nothing; and the
claim's scenario with records `[(n, u), (m, v)]` yields one update and one
addition, the entry renamed in place with id preserved, and a freshly
identified new entry appended (the `existing_urls` dict itself is left as
built: the insert does not extend it). -/
theorem c3_merge_counting (freshIds : Nat → String) (e : ServerEntry)
    (u n m v idr idr2 : String) (he : e.transport = some ⟨"http", u⟩) :
    (n ≠ e.name →
      mergeServers freshIds [e] [⟨n, u, idr⟩] =
        ⟨[{ e with name := n }], [(u, 0)], 1, 0, 0⟩) ∧
    (mergeServers freshIds [e] [⟨e.name, u, idr⟩] = ⟨[e], [(u, 0)], 0, 0, 0⟩) ∧
    (v ≠ u → n ≠ e.name →
      mergeServers freshIds [e] [⟨n, u, idr⟩, ⟨m, v, idr2⟩] =
        ⟨[{ e with name := n }, ⟨freshIds 0, m, true, some ⟨"http", v⟩⟩],
          [(u, 0)], 1, 1, 1⟩) := by
  have hhu : entryHttpUrl e = some u := by simp [entryHttpUrl, he]
  refine ⟨?_, ?_, ?_⟩
  · intro hn
    simp [mergeServers, buildIndex, buildIndexAux, hhu, mergeStep, lastLookup,
      Ne.symm hn]
  · simp [mergeServers, buildIndex, buildIndexAux, hhu, mergeStep, lastLookup]
  · intro hv hn
    simp [mergeServers, buildIndex, buildIndexAux, hhu, mergeStep, lastLookup,
      Ne.symm hn, Ne.symm hv]

/-- Witness for C3 at the specification's concrete scenario: registry entry
named `Old` at `https://x`, incoming `[(New, https://x), (Fresh,
https://y)]`. -/
theorem c3_merge_counting_witness :
    mergeServers (fun _ => "fresh-uuid")
        [⟨"id0", "Old", true, some ⟨"http", "https://x"⟩⟩]
        [⟨"New", "https://x", "i1"⟩, ⟨"Fresh", "https://y", "i2"⟩] =
      ⟨[⟨"id0", "New", true, some ⟨"http", "https://x"⟩⟩,
        ⟨"fresh-uuid", "Fresh", true, some ⟨"http", "https://y"⟩⟩],
        [("https://x", 0)], 1, 1, 1⟩ :=
  (c3_merge_counting (fun _ => "fresh-uuid")
    ⟨"id0", "Old", true, some ⟨"http", "https://x"⟩⟩
    "https://x" "New" "Fresh" "https://y" "i1" "i2" rfl).2.2
    (by decide) (by decide)

/-!  How renaming an entry or appending one changes the rebuilt index, and
the mid-pass shape of the loop state: the stale `existing_urls` dict
describes exactly the (renamed) original front of the server list, while the
entries appended so far carry URLs the stale dict cannot resolve. -/

theorem buildIndexAux_set (e e' : ServerEntry)
    (hf : entryHttpUrl e' = entryHttpUrl e) :
    ∀ (l : List ServerEntry) (j i : Nat), l[j]? = some e →
      buildIndexAux i (l.set j e') = buildIndexAux i l := by
  intro l
  induction l with
  | nil => intro j i h; simp at h
  | cons a rest ih =>
    intro j i h
    cases j with
    | zero =>
      rw [List.getElem?_cons_zero] at h
      injection h with h
      show buildIndexAux i (e' :: rest) = buildIndexAux i (a :: rest)
      simp only [buildIndexAux, hf, h]
    | succ n =>
      rw [List.getElem?_cons_succ] at h
      show buildIndexAux i (a :: rest.set n e') = buildIndexAux i (a :: rest)
      simp only [buildIndexAux]
      cases entryHttpUrl a <;> simp [ih n (i + 1) h]

theorem buildIndexAux_append_one (e : ServerEntry) :
    ∀ (l : List ServerEntry) (i : Nat),
      buildIndexAux i (l ++ [e]) =
        buildIndexAux i l ++
          (entryHttpUrl e).elim [] (fun u => [(u, i + l.length)]) := by
  intro l
  induction l with
  | nil =>
    intro i
    cases he : entryHttpUrl e <;> simp [buildIndexAux, he]
  | cons a rest ih =>
    intro i
    show buildIndexAux i (a :: (rest ++ [e])) = _
    simp only [buildIndexAux]
    cases ha : entryHttpUrl a with
    | some u0 =>
      rw [ih (i + 1)]
      have harith : i + 1 + rest.length = i + (a :: rest).length := by
        simp; omega
      rw [harith]
      simp
    | none =>
      rw [ih (i + 1)]
      have harith : i + 1 + rest.length = i + (a :: rest).length := by
        simp; omega
      rw [harith]

theorem buildIndexAux_append (B : List ServerEntry) :
    ∀ (A : List ServerEntry) (i : Nat),
      buildIndexAux i (A ++ B) =
        buildIndexAux i A ++ buildIndexAux (i + A.length) B := by
  intro A
  induction A with
  | nil => intro i; simp [buildIndexAux]
  | cons a rest ih =>
    intro i
    show buildIndexAux i (a :: (rest ++ B)) = _
    simp only [buildIndexAux]
    cases ha : entryHttpUrl a with
    | some u0 =>
      rw [ih (i + 1)]
      have harith : i + 1 + rest.length = i + (a :: rest).length := by
        simp; omega
      rw [harith]
      simp
    | none =>
      rw [ih (i + 1)]
      have harith : i + 1 + rest.length = i + (a :: rest).length := by
        simp; omega
      rw [harith]

theorem lastLookup_buildIndexAux_none (u : String) (B : List ServerEntry)
    (k : Nat) (h : ∀ e ∈ B, entryHttpUrl e ≠ some u) :
    lastLookup (buildIndexAux k B) u = none := by
  apply lastLookup_eq_none_of_not_mem
  intro p hp hpu
  obtain ⟨u', j⟩ := p
  have hpu' : u' = u := hpu
  subst hpu'
  rcases (buildIndexAux_mem u' j B k).mp hp with ⟨m, e, hm, he, _⟩
  rcases List.getElem?_eq_some.mp hm with ⟨hlt, hget⟩
  exact h e (hget ▸ List.getElem_mem hlt) he

theorem set_append_left {α : Type} (A B : List α) (i : Nat) (a : α)
    (h : i < A.length) : (A ++ B).set i a = A.set i a ++ B := by
  rw [List.set_append, if_pos h]

theorem passShape_init (servers : List ServerEntry) :
    PassShape ⟨servers, buildIndex servers, 0, 0, 0⟩ := by
  refine ⟨servers, [], ?_, rfl, ?_⟩
  · show servers = servers ++ []
    simp
  · intro e he
    simp at he

theorem passShape_valid (st : MergeState) (h : PassShape st) :
    IndexOK st.servers st.index := by
  obtain ⟨front, back, hserv, hidx, _⟩ := h
  intro u i hmem
  rw [hidx] at hmem
  rcases (buildIndex_mem u i front).mp hmem with ⟨e, he, hu⟩
  have hilen : i < front.length := by
    rcases List.getElem?_eq_some.mp he with ⟨hlt, _⟩
    exact hlt
  refine ⟨e, ?_, hu⟩
  rw [hserv, List.getElem?_append_left hilen]
  exact he

theorem passShape_lookup_stale (st : MergeState) (h : PassShape st)
    (u : String) (i : Nat) (hl : lastLookup st.index u = some i) :
    lastLookup (buildIndex st.servers) u = some i := by
  obtain ⟨front, back, hserv, hidx, hback⟩ := h
  rw [hserv, buildIndex, buildIndexAux_append back front 0, lastLookup_append]
  have hb : lastLookup (buildIndexAux (0 + front.length) back) u = none := by
    apply lastLookup_buildIndexAux_none
    intro e he hcontr
    have h2 := hback e he u hcontr
    rw [hl] at h2
    cases h2
  rw [hb]
  show lastLookup (buildIndexAux 0 front) u = some i
  have h3 : lastLookup st.index u = some i := hl
  rw [hidx] at h3
  exact h3

theorem mergeStep_passShape (f : Nat → String) (st : MergeState)
    (rec : ServiceRecord) (h : PassShape st) :
    PassShape (mergeStep f st rec) := by
  obtain ⟨front, back, hserv, hidx, hback⟩ := h
  cases hl : lastLookup st.index rec.url with
  | some i =>
    cases hs : st.servers[i]? with
    | some old =>
      by_cases hn : old.name = rec.name
      · rw [mergeStep_noop f st rec i old hl hs hn]
        exact ⟨front, back, hserv, hidx, hback⟩
      · rw [mergeStep_update f st rec i old hl hs hn]
        have hmem : (rec.url, i) ∈ st.index := lastLookup_mem hl
        rw [hidx] at hmem
        rcases (buildIndex_mem rec.url i front).mp hmem with ⟨e0, he0, hu0⟩
        have hilen : i < front.length := by
          rcases List.getElem?_eq_some.mp he0 with ⟨hlt, _⟩
          exact hlt
        have hfold : front[i]? = some old := by
          have h2 : st.servers[i]? = front[i]? := by
            rw [hserv, List.getElem?_append_left hilen]
          rw [h2] at hs
          exact hs
        refine ⟨front.set i { old with name := rec.name }, back, ?_, ?_, ?_⟩
        · show st.servers.set i { old with name := rec.name } = _
          rw [hserv, set_append_left front back i _ hilen]
        · show st.index = _
          rw [hidx, buildIndex, buildIndex,
            buildIndexAux_set old { old with name := rec.name }
              (entryHttpUrl_rename old rec.name) front i 0 hfold]
        · intro e he u hu
          exact hback e he u hu
    | none =>
      rw [mergeStep_stuck f st rec i hl hs]
      exact ⟨front, back, hserv, hidx, hback⟩
  | none =>
    rw [mergeStep_insert f st rec hl]
    refine ⟨front,
      back ++ [⟨f st.freshCount, rec.name, true, some ⟨"http", rec.url⟩⟩],
      ?_, hidx, ?_⟩
    · show st.servers ++ _ = _
      rw [hserv, List.append_assoc]
    · intro e he u hu
      rcases List.mem_append.mp he with he | he
      · exact hback e he u hu
      · rw [List.mem_singleton] at he
        subst he
        have hu' : rec.url = u := by
          simpa [entryHttpUrl] using hu
        show lastLookup st.index u = none
        rw [← hu']
        exact hl

theorem foldl_passShape (f : Nat → String) (records : List ServiceRecord) :
    ∀ st : MergeState, PassShape st →
      PassShape (records.foldl (mergeStep f) st) := by
  induction records with
  | nil => intro st h; exact h
  | cons rec rest ih =>
    intro st h
    exact ih (mergeStep f st rec) (mergeStep_passShape f st rec h)

/-!  A pass over records that the state already matches is a no-op. -/

theorem mergeStep_matches_noop (f : Nat → String) (st : MergeState)
    (rec : ServiceRecord) (h : Matches st.servers st.index rec) :
    mergeStep f st rec = st := by
  rcases h with ⟨i, e, hl, hs, hname⟩
  exact mergeStep_noop f st rec i e hl hs hname

theorem foldl_matches_noop (f : Nat → String) (records : List ServiceRecord) :
    ∀ st : MergeState, (∀ rec ∈ records, Matches st.servers st.index rec) →
      records.foldl (mergeStep f) st = st := by
  induction records with
  | nil => intro st _; rfl
  | cons rec rest ih =>
    intro st h
    rw [List.foldl_cons,
      mergeStep_matches_noop f st rec (h rec (List.mem_cons_self _ _))]
    exact ih st (fun r hr => h r (List.mem_cons_of_mem _ hr))

/-!  After processing a record, the state — read through the index rebuilt
from its *current* server list, the dict the second `sync` run will build —
matches it; later records with other URLs keep that. -/

theorem mergeStep_matchesR_self (f : Nat → String) (st : MergeState)
    (rec : ServiceRecord) (hps : PassShape st) :
    Matches (mergeStep f st rec).servers
      (buildIndex (mergeStep f st rec).servers) rec := by
  cases hl : lastLookup st.index rec.url with
  | some i =>
    cases hs : st.servers[i]? with
    | some old =>
      by_cases hn : old.name = rec.name
      · rw [mergeStep_noop f st rec i old hl hs hn]
        exact ⟨i, old, passShape_lookup_stale st hps rec.url i hl, hs, hn⟩
      · rw [mergeStep_update f st rec i old hl hs hn]
        have hilen : i < st.servers.length := by
          rcases List.getElem?_eq_some.mp hs with ⟨hlt, _⟩
          exact hlt
        have hbi : buildIndex (st.servers.set i { old with name := rec.name }) =
            buildIndex st.servers := by
          rw [buildIndex, buildIndex]
          exact buildIndexAux_set old { old with name := rec.name }
            (entryHttpUrl_rename old rec.name) st.servers i 0 hs
        refine ⟨i, { old with name := rec.name }, ?_,
          List.getElem?_set_eq_of_lt _ hilen, rfl⟩
        show lastLookup (buildIndex (st.servers.set i _)) rec.url = some i
        rw [hbi]
        exact passShape_lookup_stale st hps rec.url i hl
    | none =>
      exfalso
      rcases passShape_valid st hps rec.url i (lastLookup_mem hl)
        with ⟨e, he, _⟩
      rw [hs] at he
      cases he
  | none =>
    rw [mergeStep_insert f st rec hl]
    refine ⟨st.servers.length,
      ⟨f st.freshCount, rec.name, true, some ⟨"http", rec.url⟩⟩, ?_,
      List.getElem?_concat_length _ _, rfl⟩
    show lastLookup (buildIndex (st.servers ++
      [⟨f st.freshCount, rec.name, true, some ⟨"http", rec.url⟩⟩])) rec.url =
      some st.servers.length
    rw [buildIndex, buildIndexAux_append_one]
    have hnew : entryHttpUrl (⟨f st.freshCount, rec.name, true,
        some ⟨"http", rec.url⟩⟩ : ServerEntry) = some rec.url := by
      simp [entryHttpUrl]
    rw [hnew]
    show lastLookup (buildIndexAux 0 st.servers ++
      [(rec.url, 0 + st.servers.length)]) rec.url = some st.servers.length
    rw [lastLookup_append]
    have hone : lastLookup [(rec.url, 0 + st.servers.length)] rec.url =
        some (0 + st.servers.length) := by
      simp [lastLookup]
    rw [hone]
    show some (0 + st.servers.length) = some st.servers.length
    rw [Nat.zero_add]

theorem mergeStep_matchesR_other (f : Nat → String) (st : MergeState)
    (rec' rec : ServiceRecord) (hps : PassShape st)
    (hne : rec.url ≠ rec'.url)
    (h : Matches st.servers (buildIndex st.servers) rec) :
    Matches (mergeStep f st rec').servers
      (buildIndex (mergeStep f st rec').servers) rec := by
  rcases h with ⟨i, e, hl, hs, hname⟩
  have hue : entryHttpUrl e = some rec.url := by
    rcases (buildIndex_mem rec.url i st.servers).mp (lastLookup_mem hl)
      with ⟨e0, he0, hu0⟩
    have hee : e = e0 := by
      have h3 := hs.symm.trans he0
      injection h3
    rw [hee]
    exact hu0
  cases hl' : lastLookup st.index rec'.url with
  | some j =>
    cases hs' : st.servers[j]? with
    | some old =>
      by_cases hn : old.name = rec'.name
      · rw [mergeStep_noop f st rec' j old hl' hs' hn]
        exact ⟨i, e, hl, hs, hname⟩
      · rw [mergeStep_update f st rec' j old hl' hs' hn]
        have hji : j ≠ i := by
          intro hji
          subst hji
          rcases passShape_valid st hps rec'.url j (lastLookup_mem hl')
            with ⟨e2, he2, hu2⟩
          have h4 : e2 = e := by
            have h5 := he2.symm.trans hs
            injection h5
          rw [h4, hue] at hu2
          injection hu2 with h6
          exact hne h6
        have hbi : buildIndex
              (st.servers.set j { old with name := rec'.name }) =
            buildIndex st.servers := by
          rw [buildIndex, buildIndex]
          exact buildIndexAux_set old { old with name := rec'.name }
            (entryHttpUrl_rename old rec'.name) st.servers j 0 hs'
        refine ⟨i, e, ?_, ?_, hname⟩
        · show lastLookup (buildIndex (st.servers.set j _)) rec.url = some i
          rw [hbi]
          exact hl
        · show (st.servers.set j _)[i]? = some e
          rw [List.getElem?_set_ne hji]
          exact hs
    | none =>
      rw [mergeStep_stuck f st rec' j hl' hs']
      exact ⟨i, e, hl, hs, hname⟩
  | none =>
    rw [mergeStep_insert f st rec' hl']
    have hilen : i < st.servers.length := by
      rcases List.getElem?_eq_some.mp hs with ⟨hlt, _⟩
      exact hlt
    refine ⟨i, e, ?_, ?_, hname⟩
    · show lastLookup (buildIndex (st.servers ++
        [⟨f st.freshCount, rec'.name, true, some ⟨"http", rec'.url⟩⟩]))
        rec.url = some i
      rw [buildIndex, buildIndexAux_append_one]
      have hnew : entryHttpUrl (⟨f st.freshCount, rec'.name, true,
          some ⟨"http", rec'.url⟩⟩ : ServerEntry) = some rec'.url := by
        simp [entryHttpUrl]
      rw [hnew]
      show lastLookup (buildIndexAux 0 st.servers ++
        [(rec'.url, 0 + st.servers.length)]) rec.url = some i
      rw [lastLookup_append]
      have hone : lastLookup [(rec'.url, 0 + st.servers.length)] rec.url =
          none := by
        simp [lastLookup]
        intro hc
        exact absurd hc.symm hne
      rw [hone]
      exact hl
    · show (st.servers ++ _)[i]? = some e
      rw [List.getElem?_append_left hilen]
      exact hs

theorem foldl_matchesR_preserve (f : Nat → String)
    (records : List ServiceRecord) :
    ∀ (st : MergeState) (rec : ServiceRecord), PassShape st →
      (∀ rec' ∈ records, rec'.url ≠ rec.url) →
      Matches st.servers (buildIndex st.servers) rec →
      Matches (records.foldl (mergeStep f) st).servers
        (buildIndex (records.foldl (mergeStep f) st).servers) rec := by
  induction records with
  | nil => intro st rec _ _ h; exact h
  | cons r rest ih =>
    intro st rec hps hne h
    rw [List.foldl_cons]
    exact ih (mergeStep f st r) rec (mergeStep_passShape f st r hps)
      (fun r' hr' => hne r' (List.mem_cons_of_mem _ hr'))
      (mergeStep_matchesR_other f st r rec hps
        (fun heq => hne r (List.mem_cons_self _ _) heq.symm) h)

theorem foldl_matchesR_all (f : Nat → String) (records : List ServiceRecord) :
    ∀ st : MergeState, PassShape st →
      (records.map (fun rec => rec.url)).Nodup →
      ∀ rec ∈ records,
        Matches (records.foldl (mergeStep f) st).servers
          (buildIndex (records.foldl (mergeStep f) st).servers) rec := by
  induction records with
  | nil => intro st _ _ rec h; simp at h
  | cons r rest ih =>
    intro st hps hnd rec hmem
    rw [List.map_cons, List.nodup_cons] at hnd
    rw [List.foldl_cons]
    rcases List.mem_cons.mp hmem with hr | hr
    · subst hr
      exact foldl_matchesR_preserve f rest (mergeStep f st rec) rec
        (mergeStep_passShape f st rec hps)
        (fun r' hr' heq => hnd.1 (heq ▸ List.mem_map_of_mem _ hr'))
        (mergeStep_matchesR_self f st rec hps)
    · exact ih (mergeStep f st r) (mergeStep_passShape f st r hps) hnd.2 rec hr

/-- C2, counterexample to the claim as stated: a remote catalog with two
valid entries named `A` and `B` sharing the URL `u` passes the filter
unchanged (no deduplication), and re-running the merge with those same
filtered records against the registry produced by the first merge yields
`(updatedCount, addedCount) = (2, 0)`, not `(0, 0)`: each pass flips the
stored name between `A` and `B`, counting an update both times. -/
theorem c2_idempotence_counterexample :
    filter_valid_servers (JVal.obj [("Data", JVal.obj [("Result", JVal.arr
      [JVal.obj [("name", JVal.str "A"),
         ("operational_urls", JVal.arr [JVal.obj [("url", JVal.str "u")]])],
       JVal.obj [("name", JVal.str "B"),
         ("operational_urls", JVal.arr [JVal.obj [("url", JVal.str "u")]])]])])]) =
      .ok [⟨"A", JVal.str "u", JVal.str "unknown"⟩,
           ⟨"B", JVal.str "u", JVal.str "unknown"⟩] ∧
    (merge (fun _ => "uuid1")
        (merge (fun _ => "uuid0") (⟨[], ()⟩ : Registry Unit)
          [⟨"A", "u", "unknown"⟩, ⟨"B", "u", "unknown"⟩]).1
        [⟨"A", "u", "unknown"⟩, ⟨"B", "u", "unknown"⟩]).2 = (2, 0) :=
  ⟨rfl, rfl⟩

/-- C2 amended: when the filtered records carry pairwise-distinct URLs (in
particular whenever no two filtered records share a URL with different
names), merging them a second time into the registry produced by the first
merge yields zero updates and zero additions, for any registry and any two
draws of fresh UUIDs. -/
theorem c2_merge_idempotent_distinct {α : Type} (f1 f2 : Nat → String)
    (r : Registry α) (records : List ServiceRecord)
    (hnd : (records.map (fun rec => rec.url)).Nodup) :
    (merge f2 (merge f1 r records).1 records).2 = (0, 0) := by
  have hmatch : ∀ rec ∈ records,
      Matches (mergeServers f1 r.servers records).servers
        (buildIndex (mergeServers f1 r.servers records).servers) rec :=
    foldl_matchesR_all f1 records
      ⟨r.servers, buildIndex r.servers, 0, 0, 0⟩
      (passShape_init r.servers) hnd
  have hfold : mergeServers f2 (mergeServers f1 r.servers records).servers
        records =
      ⟨(mergeServers f1 r.servers records).servers,
        buildIndex (mergeServers f1 r.servers records).servers, 0, 0, 0⟩ :=
    foldl_matches_noop f2 records _ (fun rec hrec => hmatch rec hrec)
  show ((mergeServers f2 (mergeServers f1 r.servers records).servers
      records).updated,
    (mergeServers f2 (mergeServers f1 r.servers records).servers
      records).added) = (0, 0)
  rw [hfold]

/-- Witness for the amended C2 at a concrete catalog with distinct URLs. -/
theorem c2_merge_idempotent_distinct_witness :
    (merge (fun _ => "uuid1")
      (merge (fun _ => "uuid0") (⟨[], ()⟩ : Registry Unit)
        [⟨"A", "u1", "i1"⟩, ⟨"B", "u2", "i2"⟩]).1
      [⟨"A", "u1", "i1"⟩, ⟨"B", "u2", "i2"⟩]).2 = (0, 0) :=
  c2_merge_idempotent_distinct (fun _ => "uuid0") (fun _ => "uuid1")
    ⟨[], ()⟩ [⟨"A", "u1", "i1"⟩, ⟨"B", "u2", "i2"⟩] (by decide)

/-!  Stepping the name resolver under well-typed fields. -/

theorem except_bind_ok {ε α β : Type} (a : α) (g : α → Except ε β) :
    ((Except.ok a : Except ε α) >>= g) = g a := rfl

theorem except_bind_error {ε α β : Type} (e : ε) (g : α → Except ε β) :
    ((Except.error e : Except ε α) >>= g) = Except.error e := rfl

theorem pyGet_str_of_wt (kvs : List (String × JVal)) (k : String)
    (h : WTStrOpt (lastLookup kvs k)) :
    pyGet (.obj kvs) k (.str "") = .ok (.str (fieldString (.obj kvs) k)) := by
  unfold pyGet fieldString
  cases hlk : lastLookup kvs k with
  | none => simp [hlk]
  | some v =>
    cases v with
    | str sv => simp [hlk]
    | null => rw [hlk] at h; exact h.elim
    | bool b => rw [hlk] at h; exact h.elim
    | num n => rw [hlk] at h; exact h.elim
    | arr xs => rw [hlk] at h; exact h.elim
    | obj o => rw [hlk] at h; exact h.elim

theorem localesLoop_cons_wt (lk : List (String × JVal)) (lang : String)
    (rest : List String) (hwt : WTLocaleVal (lastLookup lk lang)) :
    localesLoop (.obj lk) (lang :: rest) =
      if pyStripString (localeName lk lang) ≠ "" then
        .ok (some (pyStripString (localeName lk lang)))
      else localesLoop (.obj lk) rest := by
  cases hz : lastLookup lk lang with
  | none =>
    have hname : localeName lk lang = "" := by
      unfold localeName
      rw [hz]
    rw [hname]
    simp only [localesLoop, pyContains, hz, Option.isSome_none, except_bind_ok]
    have hstrip : pyStripString "" = "" := rfl
    rw [hstrip]
    simp
  | some zv =>
    cases zv with
    | obj o =>
      have hwtn : WTStrOpt (lastLookup o "name") := by
        rw [hz] at hwt
        exact hwt
      have hname : localeName lk lang =
          fieldString (.obj o) "name" := by
        unfold localeName fieldString
        rw [hz]
      rw [hname]
      simp only [localesLoop, pyContains, hz, Option.isSome_some, if_true,
        except_bind_ok]
      rw [pySubscript]
      simp only [hz, except_bind_ok]
      rw [pyGet_str_of_wt o "name" hwtn]
      simp only [except_bind_ok, pyStrip]
      split <;> rfl
    | null => rw [hz] at hwt; exact hwt.elim
    | bool b => rw [hz] at hwt; exact hwt.elim
    | num n => rw [hz] at hwt; exact hwt.elim
    | str sv => rw [hz] at hwt; exact hwt.elim
    | arr xs => rw [hz] at hwt; exact hwt.elim

theorem except_pure {ε α : Type} (a : α) :
    (pure a : Except ε α) = Except.ok a := rfl

theorem get_server_name_wt (s : JVal) (h : WTService s) :
    get_server_name s = .ok (resolveNameSpec s) := by
  rcases h with ⟨kvs, rfl, hc, hloc, hn, hid⟩
  unfold get_server_name resolveNameSpec
  rw [pyGet_str_of_wt kvs "chinese_name" hc]
  simp only [except_bind_ok, pyStrip]
  by_cases h1 : pyStripString (fieldString (JVal.obj kvs) "chinese_name") = ""
  case neg =>
    rw [if_pos h1, if_pos h1]
    rfl
  rw [if_neg (not_not_intro h1), if_neg (not_not_intro h1)]
  simp only [except_pure, except_bind_ok]
  cases hlk : lastLookup kvs "locales" with
  | none =>
    have hg : pyGet (JVal.obj kvs) "locales" (JVal.obj []) =
        .ok (JVal.obj []) := by
      simp [pyGet, hlk]
    rw [hg]
    simp only [except_bind_ok]
    have hll : localesLoop (JVal.obj []) ["zh", "en"] = .ok none := rfl
    rw [hll]
    simp only [except_bind_ok]
    have hz : localeString (JVal.obj kvs) "zh" = "" := by
      simp [localeString, hlk]
    have hen : localeString (JVal.obj kvs) "en" = "" := by
      simp [localeString, hlk]
    rw [hz, hen]
    have hempty : pyStripString "" = "" := rfl
    rw [hempty, if_neg (not_not_intro rfl), if_neg (not_not_intro rfl)]
    rw [pyGet_str_of_wt kvs "name" hn]
    simp only [except_bind_ok, pyStrip]
    by_cases h3 : pyStripString (fieldString (JVal.obj kvs) "name") = ""
    case neg =>
      rw [if_pos h3, if_pos h3]
    rw [if_neg (not_not_intro h3), if_neg (not_not_intro h3)]
    rw [pyGet_str_of_wt kvs "id" hid]
    simp only [except_bind_ok, pyStrip]
    by_cases h4 : pyStripString (fieldString (JVal.obj kvs) "id") = ""
    case neg =>
      rw [if_pos h4, if_pos h4]
    rw [if_neg (not_not_intro h4), if_neg (not_not_intro h4)]
  | some lv =>
    cases lv with
    | obj lk =>
      rw [hlk] at hloc
      obtain ⟨hwzh, hwen⟩ := hloc
      have hg : pyGet (JVal.obj kvs) "locales" (JVal.obj []) =
          .ok (JVal.obj lk) := by
        simp [pyGet, hlk]
      rw [hg]
      simp only [except_bind_ok]
      have hlz : localeString (JVal.obj kvs) "zh" = localeName lk "zh" := by
        simp [localeString, hlk]
      have hle : localeString (JVal.obj kvs) "en" = localeName lk "en" := by
        simp [localeString, hlk]
      rw [hlz, hle, localesLoop_cons_wt lk "zh" ["en"] hwzh]
      by_cases h2 : pyStripString (localeName lk "zh") = ""
      case neg =>
        rw [if_pos h2, if_pos h2]
        rfl
      rw [if_neg (not_not_intro h2), if_neg (not_not_intro h2),
        localesLoop_cons_wt lk "en" [] hwen]
      by_cases h2e : pyStripString (localeName lk "en") = ""
      case neg =>
        rw [if_pos h2e, if_pos h2e]
        rfl
      rw [if_neg (not_not_intro h2e), if_neg (not_not_intro h2e)]
      have hbase : localesLoop (JVal.obj lk) [] = .ok none := rfl
      rw [hbase]
      simp only [except_bind_ok]
      rw [pyGet_str_of_wt kvs "name" hn]
      simp only [except_bind_ok, pyStrip]
      by_cases h3 : pyStripString (fieldString (JVal.obj kvs) "name") = ""
      case neg =>
        rw [if_pos h3, if_pos h3]
      rw [if_neg (not_not_intro h3), if_neg (not_not_intro h3)]
      rw [pyGet_str_of_wt kvs "id" hid]
      simp only [except_bind_ok, pyStrip]
      by_cases h4 : pyStripString (fieldString (JVal.obj kvs) "id") = ""
      case neg =>
        rw [if_pos h4, if_pos h4]
      rw [if_neg (not_not_intro h4), if_neg (not_not_intro h4)]
    | null => rw [hlk] at hloc; exact hloc.elim
    | bool b => rw [hlk] at hloc; exact hloc.elim
    | num n => rw [hlk] at hloc; exact hloc.elim
    | str sv => rw [hlk] at hloc; exact hloc.elim
    | arr xs => rw [hlk] at hloc; exact hloc.elim

/-- C4: on records whose name-related fields are well-typed, the name
resolver returns exactly what the specification's priority chain
(`resolveNameSpec`) prescribes: the first non-empty string after trimming
among `chinese_name`, `locales.zh.name`, `locales.en.name`, `name`, then the
trimmed identifier itself with every `@` removed and every `/` replaced by
`-`, and null when no stage yields a non-empty string; together with the
specification's three concrete examples. -/
theorem c4_name_resolution_priority :
    (∀ s : JVal, WTService s → get_server_name s = .ok (resolveNameSpec s)) ∧
    get_server_name (.obj [("chinese_name", .str "A"), ("name", .str "B")]) =
      .ok (some "A") ∧
    get_server_name
        (.obj [("locales", .obj [("en", .obj [("name", .str "C")])])]) =
      .ok (some "C") ∧
    get_server_name (.obj [("id", .str "@scope/pkg")]) = .ok (some "scope-pkg") :=
  ⟨get_server_name_wt, rfl, rfl, rfl⟩

/-- Witness for C4 at the record with both a chinese and a generic name. -/
theorem c4_name_resolution_priority_witness :
    get_server_name (.obj [("chinese_name", JVal.str "A"),
        ("name", JVal.str "B")]) =
      .ok (resolveNameSpec (.obj [("chinese_name", JVal.str "A"),
        ("name", JVal.str "B")])) :=
  c4_name_resolution_priority.1
    (.obj [("chinese_name", JVal.str "A"), ("name", JVal.str "B")])
    ⟨[("chinese_name", JVal.str "A"), ("name", JVal.str "B")], rfl,
      trivial, trivial, trivial, trivial⟩

/-- C5, counterexample to the claim as stated: a record whose
`chinese_name` field is present but holds null makes `get_server_name`
raise `AttributeError` (Python's `None.strip()` does not exist) instead of
returning null; the claim asserts that no input raises. -/
theorem c5_no_exception_counterexample :
    get_server_name (.obj [("chinese_name", JVal.null)]) =
      .error (.attributeError "strip") := rfl

/-- C5 amended: the resolver terminates normally with an `.ok` payload — a
string or null, never an exception — for every record whose name-related
fields, where present, hold strings (with `locales` an object of objects
whose `name` fields are strings); a present-but-non-string name field
instead raises an exception, so absence of a usable name is expressed
through the null payload only on this well-typed domain. -/
theorem c5_no_exception_wt (s : JVal) (h : WTService s) :
    ∃ r : Option String, get_server_name s = .ok r :=
  ⟨resolveNameSpec s, get_server_name_wt s h⟩

/-- Witness for the amended C5 on a record with only a generic name. -/
theorem c5_no_exception_wt_witness :
    ∃ r : Option String,
      get_server_name (.obj [("name", JVal.str "X")]) = .ok r :=
  c5_no_exception_wt (.obj [("name", JVal.str "X")])
    ⟨[("name", JVal.str "X")], rfl, trivial, trivial, trivial, trivial⟩

/-!  The filter loop on well-typed entries. -/

theorem emitEntry_sound (e : JVal) (r : RecordJ) (h : emitEntry e = some r) :
    r.name ≠ "" ∧ pyTruthy r.url = true := by
  unfold emitEntry at h
  cases hr : resolveNameSpec e with
  | none =>
    simp only [hr] at h
    exact Option.noConfusion h
  | some n =>
    simp only [hr] at h
    by_cases hn : n = ""
    · rw [if_pos hn] at h; cases h
    · rw [if_neg hn] at h
      split at h
      · cases h
      · split at h
        · split at h
          · cases h
          · injection h with h
            subst h
            refine ⟨hn, ?_⟩
            rename_i hurl
            exact not_not.mp hurl
        · cases h

theorem filterLoop_cons_eq (acc : List RecordJ) (service : JVal)
    (rest : List JVal) :
    filterLoop acc (service :: rest) = (do
      match ← get_server_name service with
      | none => filterLoop acc rest
      | some name =>
        if name = "" then filterLoop acc rest
        else
          let urls ← pyGet service "operational_urls" (.arr [])
          if ¬ pyTruthy urls then filterLoop acc rest
          else
            let first ← pySubscriptNat urls 0
            let url ← pyGet first "url" .null
            if ¬ pyTruthy url then filterLoop acc rest
            else do
              let sid ← pyGet service "id" (.str "unknown")
              filterLoop (acc ++ [⟨name, url, sid⟩]) rest) := rfl

theorem filterLoop_wt_cons (acc : List RecordJ) (e : JVal) (rest : List JVal)
    (hwt : WTEntry e) :
    filterLoop acc (e :: rest) =
      filterLoop (acc ++ (emitEntry e).toList) rest := by
  rcases hwt with ⟨kvs, rfl, hsvc, hurls⟩
  have hsv : WTService (.obj kvs) := ⟨kvs, rfl, hsvc⟩
  rw [filterLoop_cons_eq]
  rw [get_server_name_wt _ hsv]
  simp only [except_bind_ok]
  unfold emitEntry
  cases hr : resolveNameSpec (JVal.obj kvs) with
  | none => simp [hr]
  | some n =>
    simp only [hr]
    by_cases hn : n = ""
    · rw [if_pos hn, if_pos hn]
      simp
    · rw [if_neg hn, if_neg hn]
      have hg : pyGet (JVal.obj kvs) "operational_urls" (JVal.arr []) =
          .ok ((lastLookup kvs "operational_urls").getD (JVal.arr [])) := rfl
      rw [hg]
      simp only [except_bind_ok]
      cases hlu : lastLookup kvs "operational_urls" with
      | none =>
        simp [pyTruthy]
      | some v =>
        rw [hlu] at hurls
        have hurls' : pyTruthy v = false ∨
            ∃ first tail, v = JVal.arr (first :: tail) ∧
              ∃ o, first = JVal.obj o := hurls
        rcases hurls' with hfal | ⟨first, tail, rfl, o, rfl⟩
        · simp [hfal]
        · have htru : pyTruthy (JVal.arr (JVal.obj o :: tail)) = true := rfl
          simp only [Option.getD_some, htru, not_true, if_false]
          have hsub : pySubscriptNat (JVal.arr (JVal.obj o :: tail)) 0 =
              .ok (JVal.obj o) := by simp [pySubscriptNat]
          rw [hsub]
          simp only [except_bind_ok]
          have hgu : pyGet (JVal.obj o) "url" JVal.null =
              .ok ((lastLookup o "url").getD JVal.null) := rfl
          rw [hgu]
          simp only [except_bind_ok]
          by_cases hu : pyTruthy ((lastLookup o "url").getD JVal.null) = true
          · simp only [hu, not_true, if_false]
            have hgi : pyGet (JVal.obj kvs) "id" (JVal.str "unknown") =
                .ok ((lastLookup kvs "id").getD (JVal.str "unknown")) := rfl
            rw [hgi]
            simp only [except_bind_ok, Option.toList_some]
          · simp [hu]

theorem filterLoop_wt (items : List JVal) :
    ∀ acc : List RecordJ, (∀ e ∈ items, WTEntry e) →
      filterLoop acc items = .ok (acc ++ items.filterMap emitEntry) := by
  induction items with
  | nil => intro acc _; simp [filterLoop]
  | cons e rest ih =>
    intro acc hwt
    rw [filterLoop_wt_cons acc e rest (hwt e (List.mem_cons_self _ _))]
    rw [ih (acc ++ (emitEntry e).toList)
      (fun e' he' => hwt e' (List.mem_cons_of_mem _ he'))]
    rw [List.filterMap_cons]
    cases emitEntry e <;> simp

theorem filter_valid_servers_lacks (resp : JVal) (h : lacksDataResult resp) :
    filter_valid_servers resp = .ok [] := by
  rcases h with hfal | ⟨kvs, rfl, hcase⟩
  · unfold filter_valid_servers
    simp [hfal, except_pure]
  · by_cases htr : pyTruthy (JVal.obj kvs) = true
    · rcases hcase with hnone | ⟨dk, hd, hres⟩
      · unfold filter_valid_servers
        simp [htr, pyContains, hnone, except_pure, except_bind_ok]
      · unfold filter_valid_servers
        simp [htr, pyContains, hd, pySubscript, hres, except_pure,
          except_bind_ok]
    · have hf : pyTruthy (JVal.obj kvs) = false := by
        cases hb : pyTruthy (JVal.obj kvs)
        · rfl
        · exact absurd hb htr
      unfold filter_valid_servers
      simp [hf, except_pure]

theorem filter_valid_servers_wt (kvs dk : List (String × JVal))
    (entries : List JVal)
    (hd : lastLookup kvs "Data" = some (.obj dk))
    (hres : lastLookup dk "Result" = some (.arr entries))
    (hwt : ∀ e ∈ entries, WTEntry e) :
    filter_valid_servers (.obj kvs) = .ok (entries.filterMap emitEntry) := by
  have htr : pyTruthy (JVal.obj kvs) = true := by
    cases kvs with
    | nil => simp [lastLookup] at hd
    | cons p rest => simp [pyTruthy]
  unfold filter_valid_servers
  simp only [htr, pyContains, hd, pySubscript, hres, Option.isSome_some,
    not_true, if_false, except_bind_ok, pyIter]
  rw [filterLoop_wt entries [] hwt]
  simp

/-- C6, counterexample to the claim as stated: a raw entry whose only name
source is the id `"@"` resolves to the empty string — which is non-null —
and has a present, non-empty endpoint list whose first endpoint carries the
non-empty url `"u"`; the claim therefore requires the entry to be emitted,
yet `filter_valid_servers` drops it (the loop's `if not name` guard rejects
empty names as well as null ones). -/
theorem c6_filter_counterexample :
    get_server_name (.obj [("id", JVal.str "@"),
        ("operational_urls", JVal.arr [JVal.obj [("url", JVal.str "u")]])]) =
      .ok (some "") ∧
    filter_valid_servers (.obj [("Data", .obj [("Result", .arr
      [.obj [("id", JVal.str "@"),
        ("operational_urls",
          JVal.arr [JVal.obj [("url", JVal.str "u")]])]])])]) =
      .ok [] :=
  ⟨rfl, rfl⟩

/-- C6 amended: `filter_valid_servers` returns the empty list whenever the
response lacks the nested `Data.Result` container (a falsy response, an
object without `Data`, or an object whose `Data` is an object without
`Result`); when `Data.Result` is a list of well-typed entries it emits, in
input order and without URL deduplication, exactly one record per entry
whose resolved name is non-null **and non-empty**, whose endpoint list is
present and truthy, and whose first endpoint has a truthy `url` (later
endpoints are never consulted); and every emitted record has a non-empty
name and a truthy url. -/
theorem c6_filter_characterisation :
    (∀ resp : JVal, lacksDataResult resp → filter_valid_servers resp = .ok []) ∧
    (∀ (kvs dk : List (String × JVal)) (entries : List JVal),
      lastLookup kvs "Data" = some (.obj dk) →
      lastLookup dk "Result" = some (.arr entries) →
      (∀ e ∈ entries, WTEntry e) →
      filter_valid_servers (.obj kvs) = .ok (entries.filterMap emitEntry)) ∧
    (∀ (e : JVal) (r : RecordJ), emitEntry e = some r →
      r.name ≠ "" ∧ pyTruthy r.url = true) :=
  ⟨filter_valid_servers_lacks, filter_valid_servers_wt, emitEntry_sound⟩

/-- Witness for the amended C6: a response without the container yields no
records; a well-typed one-entry response yields its one record; that record
has a non-empty name and a truthy url. -/
theorem c6_filter_characterisation_witness :
    filter_valid_servers (.obj [("Data", JVal.obj [])]) = .ok [] ∧
    filter_valid_servers (.obj [("Data", .obj [("Result", .arr
      [.obj [("name", JVal.str "Old"),
        ("operational_urls",
          JVal.arr [JVal.obj [("url", JVal.str "https://x")]])]])])]) =
      .ok ([.obj [("name", JVal.str "Old"),
        ("operational_urls",
          JVal.arr [JVal.obj [("url", JVal.str "https://x")]])]].filterMap
            emitEntry) ∧
    (("Old" : String) ≠ "" ∧ pyTruthy (JVal.str "https://x") = true) := by
  refine ⟨?_, ?_, ?_⟩
  · exact c6_filter_characterisation.1 (.obj [("Data", JVal.obj [])])
      (Or.inr ⟨[("Data", JVal.obj [])], rfl, Or.inr ⟨[], rfl, rfl⟩⟩)
  · exact c6_filter_characterisation.2.1
      [("Data", .obj [("Result", .arr
        [.obj [("name", JVal.str "Old"),
          ("operational_urls",
            JVal.arr [JVal.obj [("url", JVal.str "https://x")]])]])])]
      [("Result", .arr
        [.obj [("name", JVal.str "Old"),
          ("operational_urls",
            JVal.arr [JVal.obj [("url", JVal.str "https://x")]])]])]
      [.obj [("name", JVal.str "Old"),
        ("operational_urls",
          JVal.arr [JVal.obj [("url", JVal.str "https://x")]])]]
      rfl rfl
      (by
        intro e he
        rw [List.mem_singleton] at he
        subst he
        exact ⟨_, rfl, ⟨trivial, trivial, trivial, trivial⟩,
          Or.inr ⟨_, _, rfl, _, rfl⟩⟩)
  · exact c6_filter_characterisation.2.2
      (.obj [("name", JVal.str "Old"),
        ("operational_urls",
          JVal.arr [JVal.obj [("url", JVal.str "https://x")]])])
      ⟨"Old", JVal.str "https://x", JVal.str "unknown"⟩ rfl

/-- C9: evaluation of `save_config` at the failing input.  For a bare
filename with no directory component, `os.path.dirname` yields the empty
string and `os.makedirs('', exist_ok=True)` raises `FileNotFoundError`,
which the except-clause converts into a raised `RuntimeError` — the claim's
"creates the missing parent directories as needed and then writes" is
violated (nothing is written and True is never returned).  For a path with a
directory component the document is written with 2-space indentation and
non-ASCII unescaped, returning True, and a failing write surfaces as a
raised `RuntimeError`. -/
theorem c9_save_config_bare_filename_bug :
    save_config true (JVal.obj []) "config.json" =
      .error (.runtimeError "save failed: makedirs of empty dirname") ∧
    save_config true (JVal.obj []) "dir/config.json" =
      .ok (true, ⟨"dir/config.json", JVal.obj [], 2, false⟩) ∧
    save_config false (JVal.obj []) "dir/config.json" =
      .error (.runtimeError "save failed") :=
  ⟨rfl, rfl, rfl⟩

/-- C8: `sync` writes the registry file only when the merge produced at
least one change.  On a transport error the exception propagates before the
registry file is read or written; when the filter yields zero valid records
`sync` returns False without reading past the load and without mutating the
registry; and when the merge yields zero updates and zero additions `sync`
returns True without backing up or writing. -/
theorem c8_sync_write_discipline {α : Type} (freshIds : Nat → String)
    (config : Registry α) (backup fileExists : Bool) :
    (∀ err : PyErr, sync freshIds (.error err) config backup fileExists =
      ⟨true, false, none, false, none⟩) ∧
    (∀ resp : JVal, filter_valid_servers resp = .ok [] →
      sync freshIds (.ok resp) config backup fileExists =
        ⟨false, true, some false, false, none⟩) ∧
    (∀ (resp : JVal) (valid : List RecordJ),
      filter_valid_servers resp = .ok valid → valid ≠ [] →
      (mergeServers freshIds config.servers
        (valid.map toServiceRecord)).updated = 0 →
      (mergeServers freshIds config.servers
        (valid.map toServiceRecord)).added = 0 →
      sync freshIds (.ok resp) config backup fileExists =
        ⟨false, true, some true, false, none⟩) := by
  refine ⟨fun err => rfl, ?_, ?_⟩
  · intro resp hf
    unfold sync
    simp only [hf]
    simp
  · intro resp valid hf hne hu ha
    cases valid with
    | nil => exact absurd rfl hne
    | cons v vs =>
      unfold sync
      simp only [hf, List.isEmpty_cons, if_false, hu, ha]
      simp

/-- Witness for C8 at concrete inputs: an API error, an empty response, and
a response whose single record matches the registry entry. -/
theorem c8_sync_write_discipline_witness :
    sync (fun _ => "fresh-uuid") (.error (.runtimeError "API failure"))
      (⟨[⟨"id0", "Old", true, some ⟨"http", "https://x"⟩⟩], ()⟩ : Registry Unit)
      true true = ⟨true, false, none, false, none⟩ ∧
    sync (fun _ => "fresh-uuid") (.ok JVal.null)
      (⟨[⟨"id0", "Old", true, some ⟨"http", "https://x"⟩⟩], ()⟩ : Registry Unit)
      true true = ⟨false, true, some false, false, none⟩ ∧
    sync (fun _ => "fresh-uuid")
      (.ok (.obj [("Data", .obj [("Result", .arr
        [.obj [("name", JVal.str "Old"),
          ("operational_urls",
            JVal.arr [JVal.obj [("url", JVal.str "https://x")]])]])])]))
      (⟨[⟨"id0", "Old", true, some ⟨"http", "https://x"⟩⟩], ()⟩ : Registry Unit)
      true true = ⟨false, true, some true, false, none⟩ := by
  refine ⟨?_, ?_, ?_⟩
  · exact (c8_sync_write_discipline (fun _ => "fresh-uuid")
      ⟨[⟨"id0", "Old", true, some ⟨"http", "https://x"⟩⟩], ()⟩ true true).1
      (.runtimeError "API failure")
  · exact (c8_sync_write_discipline (fun _ => "fresh-uuid")
      ⟨[⟨"id0", "Old", true, some ⟨"http", "https://x"⟩⟩], ()⟩ true true).2.1
      JVal.null rfl
  · exact (c8_sync_write_discipline (fun _ => "fresh-uuid")
      ⟨[⟨"id0", "Old", true, some ⟨"http", "https://x"⟩⟩], ()⟩ true true).2.2
      (.obj [("Data", .obj [("Result", .arr
        [.obj [("name", JVal.str "Old"),
          ("operational_urls",
            JVal.arr [JVal.obj [("url", JVal.str "https://x")]])]])])])
      [⟨"Old", JVal.str "https://x", JVal.str "unknown"⟩]
      rfl (List.cons_ne_nil _ _) rfl rfl

/-!  Lookup behaviour of the export dictionary. -/

theorem lookupAssoc_cons (k : String) (q : String × MCPEntry)
    (l : List (String × MCPEntry)) :
    lookupAssoc (q :: l) k = if q.1 = k then some q.2 else lookupAssoc l k := by
  unfold lookupAssoc
  rw [List.find?_cons]
  by_cases hq : q.1 = k <;> simp [hq]

theorem lookupAssoc_map_replace (k k' : String) (v : MCPEntry)
    (hkk : k' ≠ k) :
    ∀ l : List (String × MCPEntry),
      lookupAssoc (l.map (fun q => if q.1 = k' then (k', v) else q)) k =
        lookupAssoc l k := by
  intro l
  induction l with
  | nil => rfl
  | cons q rest ih =>
    show lookupAssoc ((if q.1 = k' then (k', v) else q) :: _) k = _
    by_cases hq : q.1 = k'
    · rw [if_pos hq, lookupAssoc_cons, lookupAssoc_cons, if_neg hkk, ih]
      have hqk : q.1 ≠ k := by rw [hq]; exact hkk
      rw [if_neg hqk]
    · rw [if_neg hq, lookupAssoc_cons, lookupAssoc_cons, ih]

theorem lookupAssoc_append_one (k : String) (l : List (String × MCPEntry))
    (p : String × MCPEntry) :
    lookupAssoc (l ++ [p]) k =
      match lookupAssoc l k with
      | some v => some v
      | none => if p.1 = k then some p.2 else none := by
  induction l with
  | nil =>
    rw [List.nil_append, lookupAssoc_cons]
    rfl
  | cons q rest ih =>
    rw [List.cons_append, lookupAssoc_cons, lookupAssoc_cons, ih]
    by_cases hq : q.1 = k <;> simp [hq]

theorem lookupAssoc_insertAssoc (l : List (String × MCPEntry))
    (k k' : String) (v : MCPEntry) :
    lookupAssoc (insertAssoc l k' v) k =
      if k' = k then some v
      else lookupAssoc l k := by
  unfold insertAssoc
  by_cases hany : l.any (fun p => p.1 = k') = true
  · rw [if_pos hany]
    by_cases hkk : k' = k
    · subst hkk
      rcases List.any_eq_true.mp hany with ⟨p, hp, hpk⟩
      rw [if_pos rfl]
      induction l with
      | nil => simp at hp
      | cons q rest ih =>
        show lookupAssoc ((if q.1 = k' then (k', v) else q) :: _) k' = _
        by_cases hq : q.1 = k'
        · rw [if_pos hq, lookupAssoc_cons, if_pos rfl]
        · rw [if_neg hq, lookupAssoc_cons, if_neg hq]
          rcases List.mem_cons.mp hp with hpq | hp'
          · subst hpq
            exact absurd (of_decide_eq_true hpk) hq
          · exact ih (List.any_eq_true.mpr ⟨p, hp', hpk⟩) hp'
    · rw [if_neg hkk, lookupAssoc_map_replace k k' v hkk]
  · rw [if_neg hany, lookupAssoc_append_one]
    by_cases hkk : k' = k
    · subst hkk
      have hnone : lookupAssoc l k' = none := by
        unfold lookupAssoc
        rw [List.find?_eq_none.mpr]
        · rfl
        · intro p hp
          intro hpk
          exact hany (List.any_eq_true.mpr ⟨p, hp, hpk⟩)
      rw [hnone]
    · cases hl : lookupAssoc l k with
      | some w => simp [hkk]
      | none => simp [hkk]

theorem pyEndsWith_append_sse (x : String) (hx : pyEndsWith x "/" = true) :
    pyEndsWith (x ++ "sse") "/sse" = true := by
  unfold pyEndsWith at hx ⊢
  rw [String.data_append, List.reverse_append]
  show startsWithChars ['e', 's', 's', '/'] (['e', 's', 's'] ++ x.data.reverse) =
    true
  simp only [List.cons_append, List.nil_append, startsWithChars]
  simpa using hx

theorem sseUrl_endsWith (url : String) :
    pyEndsWith (sseUrl url) "/sse" = true := by
  unfold sseUrl
  by_cases h1 : pyEndsWith url "/sse" = true
  · rw [if_pos h1]
    exact h1
  · rw [if_neg h1]
    by_cases h2 : pyEndsWith url "/" = true
    · rw [if_pos h2]
      exact pyEndsWith_append_sse url h2
    · rw [if_neg h2]
      refine pyEndsWith_append_sse (url ++ "/") ?_
      unfold pyEndsWith
      rw [String.data_append, List.reverse_append]
      rfl

theorem export_lookup_foldl (k : String) (records : List ServiceRecord) :
    ∀ acc : List (String × MCPEntry),
      lookupAssoc (records.foldl
        (fun a r => insertAssoc a (slugify r.name) ⟨"sse", sseUrl r.url⟩) acc) k =
      match records.reverse.find? (fun r => slugify r.name == k) with
      | some r => some ⟨"sse", sseUrl r.url⟩
      | none => lookupAssoc acc k := by
  induction records with
  | nil => intro acc; rfl
  | cons r rest ih =>
    intro acc
    rw [List.foldl_cons, ih, List.reverse_cons, List.find?_append]
    cases hf : rest.reverse.find? (fun q => slugify q.name == k) with
    | some r' => simp [Option.or]
    | none =>
      simp only [Option.none_or]
      rw [lookupAssoc_insertAssoc]
      by_cases hk : slugify r.name = k
      · rw [if_pos hk, List.find?_cons_of_pos _ (by simp [hk])]
      · rw [if_neg hk, List.find?_cons_of_neg _ (by simp [hk])]
        rfl

/-- C10: the export transformer maps, for each record, the slug of its name
(lower-cased, spaces and underscores replaced with hyphens, every character
that is not alphanumeric or a hyphen stripped) to an entry `{type: "sse",
url'}` with `url'` the record's url left unchanged when it already ends in
`/sse` and otherwise extended with a trailing `/` (when missing) and `sse`;
looking up any slug returns the entry of the **last** record with that slug
(later records silently overwrite earlier ones); the normalised url always
ends in `/sse`; and the specification's concrete examples hold, including
the in-place overwrite on a slug collision. -/
theorem c10_export_transformer :
    (∀ (records : List ServiceRecord) (k : String),
      lookupAssoc (export_mcp_servers records) k =
        match records.reverse.find? (fun r => slugify r.name == k) with
        | some r => some ⟨"sse", sseUrl r.url⟩
        | none => none) ∧
    (∀ url : String, pyEndsWith (sseUrl url) "/sse" = true) ∧
    (∀ url : String, pyEndsWith url "/sse" = true → sseUrl url = url) ∧
    slugify "My Server!" = "my-server" ∧
    sseUrl "https://h/mcp" = "https://h/mcp/sse" ∧
    export_mcp_servers [⟨"My Server!", "https://h/mcp", "i1"⟩] =
      [("my-server", ⟨"sse", "https://h/mcp/sse"⟩)] ∧
    export_mcp_servers [⟨"A B", "https://h/a/sse", "i1"⟩, ⟨"a-b", "u2", "i2"⟩] =
      [("a-b", ⟨"sse", "u2/sse"⟩)] := by
  refine ⟨?_, sseUrl_endsWith, ?_, rfl, rfl, rfl, rfl⟩
  · intro records k
    exact export_lookup_foldl k records []
  · intro url h
    unfold sseUrl
    rw [if_pos h]

/-- Witness for C10's conditional conjunct: a url already ending in `/sse`
is left unchanged. -/
theorem c10_export_transformer_witness :
    sseUrl "https://h/mcp/sse" = "https://h/mcp/sse" :=
  c10_export_transformer.2.2.1 "https://h/mcp/sse" rfl
